import Mathlib

/-!
Verification of `hugh`'s date/time parsing (`hugh/i18n.py`) and the US phone
number form field (`hugh/localized/us/__init__.py`).

The Python code calls `time.strptime`, whose behaviour is determined by the
regular expressions CPython's `_strptime` module builds for each directive
(`%Y` ↦ `\d\d\d\d`, `%m` ↦ `1[0-2]|0[1-9]|[1-9]`, …), compiled with
`IGNORECASE`, matched at the start of the string, and followed by an
"unconverted data remains" check that the whole input was consumed.  We embed
exactly that: a format is a list of tokens, each token matches a list of
candidate splits of the input in the regex engine's priority order, and the
overall match backtracks across those candidates.  Field defaults, the
`%y` pivot (≤ 68 ↦ 2000s), `%I`/`%p` hour adjustment and the date validation
performed by `datetime.date` inside `_strptime` are reproduced, as is the
quirk that `datetime(*struct_time[:7])` passes `tm_wday` as the microsecond
argument (immediately cleared by `.replace(microsecond=0)`).
All strings are ASCII in scope; `unicode.lower()` is modelled on ASCII.
-/

namespace Hugh

/-- ASCII lowercase, modelling `unicode.lower()` on the ASCII range. -/
def asciiLower (c : Char) : Char :=
  if 65 ≤ c.toNat ∧ c.toNat ≤ 90 then Char.ofNat (c.toNat + 32) else c

/-- `string.lower()` on a character list. -/
def pyLower (s : List Char) : List Char := s.map asciiLower

/-- The characters matched by the regex class `\s` on a `str` pattern. -/
def wsChars : List Char := [' ', '\t', '\n', '\r', '\x0b', '\x0c']

def isWs (c : Char) : Bool := decide (c ∈ wsChars)

/-- `\d`: an ASCII digit. -/
def isDig (c : Char) : Bool := decide (48 ≤ c.toNat ∧ c.toNat ≤ 57)

/-- Numeric value of an ASCII digit character. -/
def dval (c : Char) : Nat := c.toNat - 48

/-- Membership in an explicit character class. -/
def chIn (l : List Char) (c : Char) : Bool := decide (c ∈ l)

/-- Try each element in order, returning the first `some` result
(the `for … try … except … continue` idiom of the source). -/
def firstSome : List α → (α → Option β) → Option β
  | [], _ => none
  | a :: l, f =>
    match f a with
    | some b => some b
    | none => firstSome l f

/-- Collect the `some`s of a list of options, keeping their order. -/
def opts (l : List (Option α)) : List α := l.filterMap id

/-- One `strptime` format directive (or literal piece) as compiled by
CPython's `_strptime.TimeRE`. -/
inductive Tok where
  | Y | y | m | d | H | I | M | S | p
  | lit (c : Char)
  | ws
deriving DecidableEq, Repr

/-- A compiled format: the token sequence of the pattern. -/
abbrev Fmt := List Tok

/-- A two-character regex alternative `c₁c₂` where each character is
constrained by a class; its value is the two-digit number read. -/
def two (p1 p2 : Char → Bool) : List Char → Option (Nat × List Char)
  | c1 :: c2 :: r => if p1 c1 && p2 c2 then some (10 * dval c1 + dval c2, r) else none
  | _ => none

/-- A one-character regex alternative. -/
def one (p : Char → Bool) : List Char → Option (Nat × List Char)
  | c :: r => if p c then some (dval c, r) else none
  | _ => none

/-- The alternative `\d\d\d\d` of `%Y`. -/
def four : List Char → Option (Nat × List Char)
  | c1 :: c2 :: c3 :: c4 :: r =>
    if isDig c1 && isDig c2 && isDig c3 && isDig c4 then
      some (1000 * dval c1 + 100 * dval c2 + 10 * dval c3 + dval c4, r)
    else none
  | _ => none

/-- A literal character of the pattern. -/
def litCands (c : Char) : List Char → List (Nat × List Char)
  | c' :: r => if c' = c then [(0, r)] else []
  | [] => []

/-- `\s+` (format whitespace): candidate splits, longest first (greedy). -/
def wsCands (s : List Char) : List (Nat × List Char) :=
  let k := (s.takeWhile isWs).length
  (List.range k).map fun i => (0, s.drop (k - i))

/-- `%p` compiled from the C locale's `am|pm`, case-insensitive:
value `0` for AM, `1` for PM. -/
def ampmCands : List Char → List (Nat × List Char)
  | c1 :: c2 :: r =>
    opts [if asciiLower c1 = 'a' ∧ asciiLower c2 = 'm' then some (0, r) else none,
          if asciiLower c1 = 'p' ∧ asciiLower c2 = 'm' then some (1, r) else none]
  | _ => []

def nonzeroDigits : List Char := ['1', '2', '3', '4', '5', '6', '7', '8', '9']

/-- Candidate (value, rest) splits for one token, in the priority order of the
regex alternation `_strptime.TimeRE` generates for the directive. -/
def candsOf : Tok → List Char → List (Nat × List Char)
  | .Y, s => opts [four s]
  | .y, s => opts [two isDig isDig s]
  | .m, s => opts [two (chIn ['1']) (chIn ['0', '1', '2']) s,
                   two (chIn ['0']) (chIn nonzeroDigits) s,
                   one (chIn nonzeroDigits) s]
  | .d, s => opts [two (chIn ['3']) (chIn ['0', '1']) s,
                   two (chIn ['1', '2']) isDig s,
                   two (chIn ['0']) (chIn nonzeroDigits) s,
                   one (chIn nonzeroDigits) s]
  | .H, s => opts [two (chIn ['2']) (chIn ['0', '1', '2', '3']) s,
                   two (chIn ['0', '1']) isDig s,
                   one isDig s]
  | .I, s => opts [two (chIn ['1']) (chIn ['0', '1', '2']) s,
                   two (chIn ['0']) (chIn nonzeroDigits) s,
                   one (chIn nonzeroDigits) s]
  | .M, s => opts [two (chIn ['0', '1', '2', '3', '4', '5']) isDig s,
                   one isDig s]
  | .S, s => opts [two (chIn ['6']) (chIn ['0', '1']) s,
                   two (chIn ['0', '1', '2', '3', '4', '5']) isDig s,
                   one isDig s]
  | .p, s => ampmCands s
  | .lit c, s => litCands c s
  | .ws, s => wsCands s

/-- The fields captured by the named groups during a match. -/
structure RawSt where
  vY : Option Nat := none
  vy : Option Nat := none
  vm : Option Nat := none
  vd : Option Nat := none
  vH : Option Nat := none
  vI : Option Nat := none
  vM : Option Nat := none
  vS : Option Nat := none
  vp : Option Nat := none
deriving DecidableEq, Repr

def initSt : RawSt := {}

/-- Record a directive's captured value. -/
def setTok : Tok → Nat → RawSt → RawSt
  | .Y, v, st => { st with vY := some v }
  | .y, v, st => { st with vy := some v }
  | .m, v, st => { st with vm := some v }
  | .d, v, st => { st with vd := some v }
  | .H, v, st => { st with vH := some v }
  | .I, v, st => { st with vI := some v }
  | .M, v, st => { st with vM := some v }
  | .S, v, st => { st with vS := some v }
  | .p, v, st => { st with vp := some v }
  | .lit _, _, st => st
  | .ws, _, st => st

/-- Backtracking matcher: the first (in alternation priority order) way the
token sequence matches a prefix of the input, returning the captured fields
and the unconsumed suffix.  This is `format_regex.match(data_string)`. -/
def matchToks : List Tok → List Char → RawSt → Option (RawSt × List Char)
  | [], s, st => some (st, s)
  | t :: ts, s, st =>
    firstSome (candsOf t s) fun vr => matchToks ts vr.2 (setTok t vr.1 st)

/-- A naive `datetime` value (fields of `datetime.datetime`). -/
structure DateTime where
  year : Nat
  month : Nat
  day : Nat
  hour : Nat
  minute : Nat
  second : Nat
  microsecond : Nat
deriving DecidableEq, Repr

def isLeap (y : Nat) : Bool := y % 4 = 0 && (y % 100 ≠ 0 || y % 400 = 0)

def daysInMonth (y m : Nat) : Nat :=
  if m = 2 then (if isLeap y then 29 else 28)
  else if m ∈ ([1, 3, 5, 7, 8, 10, 12] : List Nat) then 31 else 30

/-- Days in the months strictly before month `m` of year `y`. -/
def daysBeforeMonth (y m : Nat) : Nat :=
  ((List.range (m - 1)).map fun i => daysInMonth y (i + 1)).sum

/-- `datetime.date.toordinal`: day count with 0001-01-01 as day 1. -/
def toOrdinal (y m d : Nat) : Nat :=
  365 * (y - 1) + (y - 1) / 4 + (y - 1) / 400 - (y - 1) / 100 + daysBeforeMonth y m + d

/-- `datetime.date.weekday()`: Monday is 0 (also `struct_time.tm_wday`). -/
def wdayOf (y m d : Nat) : Nat := (toOrdinal y m d + 6) % 7

/-- The validation performed by the `datetime.date` constructor. -/
def dateOK (y m d : Nat) : Prop :=
  1 ≤ y ∧ y ≤ 9999 ∧ 1 ≤ m ∧ m ≤ 12 ∧ 1 ≤ d ∧ d ≤ daysInMonth y m

instance (y m d : Nat) : Decidable (dateOK y m d) := by unfold dateOK; infer_instance

/-- The first seven fields of `struct_time` (`[:7]`):
year, month, day, hour, minute, second, weekday. -/
structure Struct7 where
  year : Nat
  month : Nat
  day : Nat
  hour : Nat
  minute : Nat
  second : Nat
  wday : Nat
deriving DecidableEq, Repr

/-- `time.strptime(s, fmt)[:7]`, `none` when it raises `ValueError`: the
compiled pattern must match, the whole input must be consumed ("unconverted
data remains" check), fields get their `_strptime` defaults (`year=1900`,
`month=day=1`, `hour=minute=second=0`), `%y` is pivoted at 68, `%I` is
adjusted by `%p`, and the date must be constructible by `datetime.date`. -/
def pyStrptime (s : List Char) (fmt : Fmt) : Option Struct7 :=
  match matchToks fmt s initSt with
  | some (st, []) =>
    let year :=
      match st.vY with
      | some v => v
      | none =>
        match st.vy with
        | some v => if v ≤ 68 then v + 2000 else v + 1900
        | none => 1900
    let month := st.vm.getD 1
    let day := st.vd.getD 1
    let hour :=
      match st.vH with
      | some v => v
      | none =>
        match st.vI with
        | some i =>
          match st.vp with
          | some pv =>
            if pv = 1 then (if i = 12 then 12 else i + 12)
            else (if i = 12 then 0 else i)
          | none => if i = 12 then 0 else i
        | none => 0
    let minute := st.vM.getD 0
    let second := st.vS.getD 0
    if dateOK year month day then
      some ⟨year, month, day, hour, minute, second, wdayOf year month day⟩
    else none
  | _ => none

/-- The `datetime.datetime` constructor: `none` models `ValueError`. -/
def pyDatetime (y mo d h mi s micro : Nat) : Option DateTime :=
  if dateOK y mo d ∧ h ≤ 23 ∧ mi ≤ 59 ∧ s ≤ 59 ∧ micro ≤ 999999 then
    some ⟨y, mo, d, h, mi, s, micro⟩
  else none

/-- The source's `convert(format)` helper:
`rv = datetime(*strptime(string, format)[:7]); return rv.replace(microsecond=0)`,
with a raised `ValueError` modelled as `none`.  Note `[:7]` makes `tm_wday`
the `microsecond` argument, which `.replace` then clears. -/
def convert (string : List Char) (format : Fmt) : Option DateTime :=
  match pyStrptime string format with
  | none => none
  | some t =>
    match pyDatetime t.year t.month t.day t.hour t.minute t.second t.wday with
    | none => none
    | some rv => some { rv with microsecond := 0 }

/-- `'%Y-%m-%d %H:%M'`, the canonical admin-panel format tried first. -/
def canonicalFmt : Fmt := [.Y, .lit '-', .m, .lit '-', .d, .ws, .H, .lit ':', .M]

/-- `TIME_FORMATS = ['%H:%M', '%H:%M:%S', '%I:%M %p', '%I:%M:%S %p']`. -/
def TIME_FORMATS : List Fmt :=
  [[.H, .lit ':', .M],
   [.H, .lit ':', .M, .lit ':', .S],
   [.I, .lit ':', .M, .ws, .p],
   [.I, .lit ':', .M, .lit ':', .S, .ws, .p]]

/-- `DATE_FORMATS = ['%m/%d/%Y', '%d/%m/%Y', '%Y%m%d', '%d. %m. %Y',
'%m/%d/%y', '%d/%m/%y', '%d%m%y', '%m%d%y', '%y%m%d']`. -/
def DATE_FORMATS : List Fmt :=
  [[.m, .lit '/', .d, .lit '/', .Y],
   [.d, .lit '/', .m, .lit '/', .Y],
   [.Y, .m, .d],
   [.d, .lit '.', .ws, .m, .lit '.', .ws, .Y],
   [.m, .lit '/', .d, .lit '/', .y],
   [.d, .lit '/', .m, .lit '/', .y],
   [.d, .m, .y],
   [.m, .d, .y],
   [.y, .m, .d]]

/-- The generator `combined()`: for each time format, for each date format,
first `t_fmt + ' ' + d_fmt`, then `d_fmt + ' ' + t_fmt`. -/
def combined : List Fmt :=
  TIME_FORMATS.flatMap fun t => DATE_FORMATS.flatMap fun d =>
    [t ++ Tok.ws :: d, d ++ Tok.ws :: t]

/-- The translation stub `_` (gettext), the identity on the text. -/
def underscoreGettext (text : List Char) : List Char := text

/-- The tuple `('now', _('now'))` the lowered input is compared against. -/
def nowAliases : List (List Char) := ["now".data, underscoreGettext "now".data]

/-- The message of the `ValueError` raised when nothing matches. -/
def invalidMsg : List Char := "invalid date format".data

/-- `parse_datetime(string, rebase)` from `hugh/i18n.py`, with the current
UTC time (`datetime.utcnow()`) passed in as the oracle `now`.  `none` input
models `string is None`; the `Except` error models the raised `ValueError`. -/
def parse_datetime (string : Option (List Char)) (now : DateTime)
    (rebase : Bool := true) : Except (List Char) DateTime :=
  match string with
  | none => .ok { now with microsecond := 0 }
  | some s =>
    if pyLower s ∈ nowAliases then .ok { now with microsecond := 0 }
    else
      match convert s canonicalFmt with
      | some dt => .ok dt
      | none =>
        match firstSome TIME_FORMATS (fun fmt => convert s fmt) with
        | some val =>
          .ok { now with hour := val.hour, minute := val.minute,
                         second := val.second, microsecond := 0 }
        | none =>
          match firstSome combined (fun fmt => convert s fmt) with
          | some dt => .ok dt
          | none => .error invalidMsg

/-- Decimal digits of `n`, most significant first (the `%d` conversion);
the fuel argument is an upper bound on the number of divisions. -/
def digitsGo : Nat → Nat → List Char → List Char
  | 0, n, acc => Nat.digitChar (n % 10) :: acc
  | fuel + 1, n, acc =>
    if n < 10 then Nat.digitChar n :: acc
    else digitsGo fuel (n / 10) (Nat.digitChar (n % 10) :: acc)

def natDigits (n : Nat) : List Char := digitsGo n n []

/-- The `%02d` conversion: zero-pad to (at least) two characters. -/
def pad02 (n : Nat) : List Char :=
  if n < 10 then '0' :: natDigits n else natDigits n

/-- `format_system_datetime`: `u'%d-%02d-%02d %02d:%02d' % (year, month, day,
hour, minute)`. -/
def format_system_datetime (dt : DateTime) (rebase : Bool := true) : List Char :=
  natDigits dt.year ++
    '-' :: (pad02 dt.month ++
      '-' :: (pad02 dt.day ++
        ' ' :: (pad02 dt.hour ++ ':' :: pad02 dt.minute)))

/-- The character class of `_phone_digits_strip_re = re.compile(r'[-\.()\s]')`. -/
def stripClass (c : Char) : Bool :=
  decide (c ∈ (['-', '.', '(', ')'] : List Char)) || isWs c

/-- `self._phone_digits_strip_re.sub('', value)`. -/
def phoneStrip (v : List Char) : List Char := v.filter fun c => !stripClass c

/-- The groups `(\d{3})(\d{3})(\d{4})` of a ten-digit string. -/
def phoneSplit (ds : List Char) : List Char × List Char × List Char :=
  (ds.take 3, (ds.drop 3).take 3, (ds.drop 3).drop 3)

/-- `self._phone_digits_re.match(value)` for `^1?(\d{3})(\d{3})(\d{4})$`:
the greedy `1?` first tries to consume a leading `'1'`, keeping it only if
exactly ten digits follow; otherwise it backtracks to the empty match. -/
def phoneMatch (s : List Char) : Option (List Char × List Char × List Char) :=
  match s with
  | c :: rest =>
    if c = '1' ∧ rest.length = 10 ∧ rest.all isDig then some (phoneSplit rest)
    else if (c :: rest).length = 10 ∧ (c :: rest).all isDig then
      some (phoneSplit (c :: rest))
    else none
  | [] => none

/-- `group(1)[0] in '01'`. -/
def headIs01 : List Char → Bool
  | c :: _ => c = '0' || c = '1'
  | [] => false

def invalidPhoneMsg : List Char :=
  "Please enter a phone number with area code in the format 555-867-5309".data

def badAreaCodeMsg : List Char :=
  "Phone area codes cannot begin with a \"1\" or \"0\"".data

def requiredMsg : List Char := "This field is required.".data

/-- Modelled from the spec: `forms.TextField.convert` is not under `src/`;
section 1 of the spec treats the field framework as an external collaborator
(the doctests show only that a required empty value raises
`ValidationError('This field is required.')`), so it is modelled as the
identity on the value apart from that required check. -/
def textFieldConvert (required : Bool) (value : List Char) :
    Except (List Char) (List Char) :=
  if required = true ∧ value = [] then .error requiredMsg else .ok value

/-- `USPhoneNumberField.convert` from `hugh/localized/us/__init__.py`. -/
def usPhoneConvert (required : Bool) (value0 : List Char) :
    Except (List Char) (List Char) :=
  match textFieldConvert required value0 with
  | .error e => .error e
  | .ok value =>
    if value = [] ∧ required = false then .ok value
    else
      match phoneMatch (phoneStrip value) with
      | none => .error invalidPhoneMsg
      | some (g1, g2, g3) =>
        if headIs01 g1 then .error badAreaCodeMsg
        else .ok (g1 ++ '-' :: (g2 ++ '-' :: g3))

/-- Which characters a token can consume. -/
def charCompat : Tok → Char → Prop
  | .lit c', c => c = c'
  | .ws, c => isWs c = true
  | .p, c => asciiLower c ∈ (['a', 'p', 'm'] : List Char)
  | .Y, c => isDig c = true
  | .y, c => isDig c = true
  | .m, c => isDig c = true
  | .d, c => isDig c = true
  | .H, c => isDig c = true
  | .I, c => isDig c = true
  | .M, c => isDig c = true
  | .S, c => isDig c = true

/-- Characters that can appear in a string fully matched by a time-only
format: digits, `':'`, whitespace, and the AM/PM letters. -/
def timeCompat (c : Char) : Prop :=
  isDig c = true ∨ c = ':' ∨ isWs c = true ∨
    asciiLower c ∈ (['a', 'p', 'm'] : List Char)

instance (c : Char) : Decidable (timeCompat c) := by
  unfold timeCompat
  infer_instance

/-- Every format `parse_datetime` ever attempts, in attempt order. -/
def allCandidates : List Fmt := canonicalFmt :: (TIME_FORMATS ++ combined)

/-- Canonical strings `"YYYY-MM-DD HH:MM"` built from their field values
(the spec's notion of a canonical, zero-padded string). -/

def pad2 (n : Nat) : List Char := [Nat.digitChar (n / 10), Nat.digitChar (n % 10)]

def pad4 (n : Nat) : List Char :=
  [Nat.digitChar (n / 1000), Nat.digitChar (n / 100 % 10),
   Nat.digitChar (n / 10 % 10), Nat.digitChar (n % 10)]

/-- The canonical string `"YYYY-MM-DD HH:MM"` with the given field values. -/
def canonicalChars (y m d h mi : Nat) : List Char :=
  pad4 y ++ '-' :: (pad2 m ++ '-' :: (pad2 d ++ ' ' :: (pad2 h ++ ':' :: pad2 mi)))

/-! Generic lemmas about the matcher. -/

theorem firstSome_eq_some {l : List α} {f : α → Option β} {b : β}
    (h : firstSome l f = some b) : ∃ a ∈ l, f a = some b := by
  induction l with
  | nil => simp [firstSome] at h
  | cons a l ih =>
    unfold firstSome at h
    cases hfa : f a with
    | some b' => rw [hfa] at h; exact ⟨a, by simp, by simpa [← h] using hfa⟩
    | none =>
      rw [hfa] at h
      obtain ⟨a', ha', hfa'⟩ := ih h
      exact ⟨a', by simp [ha'], hfa'⟩

theorem firstSome_eq_none {l : List α} {f : α → Option β} :
    firstSome l f = none ↔ ∀ a ∈ l, f a = none := by
  induction l with
  | nil => simp [firstSome]
  | cons a l ih =>
    unfold firstSome
    cases hfa : f a with
    | some b => simp [hfa]
    | none => simpa [hfa] using ih

theorem firstSome_cons_some {a : α} {l : List α} {f : α → Option β} {b : β}
    (h : f a = some b) : firstSome (a :: l) f = some b := by
  simp [firstSome, h]

theorem firstSome_cons_none {a : α} {l : List α} {f : α → Option β}
    (h : f a = none) : firstSome (a :: l) f = firstSome l f := by
  simp [firstSome, h]

/-- First-match-wins: if the candidate at index `i` succeeds and all earlier
candidates fail, that candidate's result is returned. -/
theorem firstSome_at_index {l : List α} {f : α → Option β} {i : Nat} {a : α} {b : β}
    (hget : l.get? i = some a) (hfa : f a = some b)
    (hbefore : ∀ j, j < i → ∀ a', l.get? j = some a' → f a' = none) :
    firstSome l f = some b := by
  induction l generalizing i with
  | nil => simp at hget
  | cons x l ih =>
    cases i with
    | zero =>
      simp only [List.get?] at hget
      cases hget
      exact firstSome_cons_some hfa
    | succ i =>
      have hx : f x = none := hbefore 0 (Nat.succ_pos i) x rfl
      rw [firstSome_cons_none hx]
      exact ih hget fun j hj a' hget' => hbefore (j + 1) (Nat.succ_lt_succ hj) a' hget'

theorem matchToks_cons_head {t : Tok} {ts : List Tok} {s r : List Char}
    {st : RawSt} {v : Nat} {tl : List (Nat × List Char)} {out : RawSt × List Char}
    (hc : candsOf t s = (v, r) :: tl)
    (hrec : matchToks ts r (setTok t v st) = some out) :
    matchToks (t :: ts) s st = some out := by
  unfold matchToks
  rw [hc]
  exact firstSome_cons_some hrec


theorem two_eq_some {p1 p2 : Char → Bool} {s r : List Char} {v : Nat}
    (h : two p1 p2 s = some (v, r)) :
    ∃ c1 c2, s = c1 :: c2 :: r ∧ p1 c1 = true ∧ p2 c2 = true := by
  match s with
  | [] => simp [two] at h
  | [c] => simp [two] at h
  | c1 :: c2 :: rest =>
    simp only [two, Option.ite_none_right_eq_some, Option.some.injEq,
      Prod.mk.injEq, Bool.and_eq_true] at h
    obtain ⟨⟨h1, h2⟩, -, hr⟩ := h
    exact ⟨c1, c2, by rw [hr], h1, h2⟩

theorem one_eq_some {p : Char → Bool} {s r : List Char} {v : Nat}
    (h : one p s = some (v, r)) : ∃ c, s = c :: r ∧ p c = true := by
  match s with
  | [] => simp [one] at h
  | c :: rest =>
    simp only [one, Option.ite_none_right_eq_some, Option.some.injEq,
      Prod.mk.injEq] at h
    obtain ⟨h1, -, hr⟩ := h
    exact ⟨c, by rw [hr], h1⟩

theorem four_eq_some {s r : List Char} {v : Nat} (h : four s = some (v, r)) :
    ∃ c1 c2 c3 c4, s = c1 :: c2 :: c3 :: c4 :: r ∧ isDig c1 = true ∧
      isDig c2 = true ∧ isDig c3 = true ∧ isDig c4 = true := by
  match s with
  | [] => simp [four] at h
  | [_] => simp [four] at h
  | [_, _] => simp [four] at h
  | [_, _, _] => simp [four] at h
  | c1 :: c2 :: c3 :: c4 :: rest =>
    simp only [four, Option.ite_none_right_eq_some, Option.some.injEq,
      Prod.mk.injEq, Bool.and_eq_true] at h
    obtain ⟨⟨⟨⟨h1, h2⟩, h3⟩, h4⟩, -, hr⟩ := h
    exact ⟨c1, c2, c3, c4, by rw [hr], h1, h2, h3, h4⟩

theorem chIn_imp {l : List Char} {c : Char} (hl : ∀ x ∈ l, isDig x = true)
    (h : chIn l c = true) : isDig c = true :=
  hl c (by simpa [chIn] using h)

theorem mem_takeWhile_ws {s : List Char} {c : Char}
    (h : c ∈ s.takeWhile isWs) : isWs c = true := List.mem_takeWhile_imp h

theorem wsCands_mem {s r : List Char} {v : Nat} (h : (v, r) ∈ wsCands s) :
    ∃ pre, s = pre ++ r ∧ ∀ c ∈ pre, isWs c = true := by
  unfold wsCands at h
  simp only [List.mem_map, List.mem_range] at h
  obtain ⟨i, hi, heq⟩ := h
  have hr : r = s.drop ((s.takeWhile isWs).length - i) := by
    have := congrArg Prod.snd heq
    simpa using this.symm
  subst hr
  refine ⟨s.take ((s.takeWhile isWs).length - i),
    (List.take_append_drop _ s).symm, ?_⟩
  intro c hc
  apply mem_takeWhile_ws (s := s)
  have htw : s.takeWhile isWs = s.take (s.takeWhile isWs).length :=
    List.prefix_iff_eq_take.mp (List.takeWhile_prefix isWs)
  have hsplit : s.take ((s.takeWhile isWs).length - i) =
      (s.take (s.takeWhile isWs).length).take ((s.takeWhile isWs).length - i) := by
    rw [List.take_take, min_eq_left (Nat.sub_le _ _)]
  rw [hsplit] at hc
  rw [htw]
  exact List.mem_of_mem_take hc

theorem litCands_mem {c0 : Char} {s r : List Char} {v : Nat}
    (h : (v, r) ∈ litCands c0 s) : s = c0 :: r := by
  match s with
  | [] => simp [litCands] at h
  | c :: rest =>
    simp only [litCands] at h
    by_cases hc : c = c0
    · subst hc
      simp at h
      rw [h.2]
    · simp [hc] at h

theorem ampmCands_mem {s r : List Char} {v : Nat} (h : (v, r) ∈ ampmCands s) :
    ∃ c1 c2, s = c1 :: c2 :: r ∧
      asciiLower c1 ∈ (['a', 'p', 'm'] : List Char) ∧
      asciiLower c2 ∈ (['a', 'p', 'm'] : List Char) := by
  match s with
  | [] => simp [ampmCands] at h
  | [_] => simp [ampmCands] at h
  | c1 :: c2 :: rest =>
    simp only [ampmCands] at h
    unfold opts at h
    rw [List.mem_filterMap] at h
    obtain ⟨o, ho, hoa⟩ := h
    simp only [List.mem_cons, List.not_mem_nil, or_false] at ho
    simp only [id] at hoa
    rcases ho with rfl | rfl
    · simp only [Option.ite_none_right_eq_some, Option.some.injEq,
        Prod.mk.injEq] at hoa
      obtain ⟨⟨ha1, ha2⟩, -, hr⟩ := hoa
      exact ⟨c1, c2, by rw [hr], by simp [ha1], by simp [ha2]⟩
    · simp only [Option.ite_none_right_eq_some, Option.some.injEq,
        Prod.mk.injEq] at hoa
      obtain ⟨⟨ha1, ha2⟩, -, hr⟩ := hoa
      exact ⟨c1, c2, by rw [hr], by simp [ha1], by simp [ha2]⟩

theorem mem_opts {l : List (Option α)} {a : α} (h : a ∈ opts l) :
    ∃ o ∈ l, o = some a := by
  unfold opts at h
  rw [List.mem_filterMap] at h
  obtain ⟨o, ho, hoa⟩ := h
  exact ⟨o, ho, by simpa using hoa⟩

theorem two_digit_pre {p1 p2 : Char → Bool} {s r : List Char} {v : Nat}
    (h : two p1 p2 s = some (v, r))
    (h1 : ∀ c, p1 c = true → isDig c = true)
    (h2 : ∀ c, p2 c = true → isDig c = true) :
    ∃ pre, s = pre ++ r ∧ ∀ c ∈ pre, isDig c = true := by
  obtain ⟨c1, c2, hs, hp1, hp2⟩ := two_eq_some h
  refine ⟨[c1, c2], by simpa using hs, ?_⟩
  intro c hc
  simp only [List.mem_cons, List.not_mem_nil, or_false] at hc
  rcases hc with rfl | rfl
  · exact h1 c hp1
  · exact h2 c hp2

theorem one_digit_pre {p : Char → Bool} {s r : List Char} {v : Nat}
    (h : one p s = some (v, r)) (h1 : ∀ c, p c = true → isDig c = true) :
    ∃ pre, s = pre ++ r ∧ ∀ c ∈ pre, isDig c = true := by
  obtain ⟨c, hs, hp⟩ := one_eq_some h
  refine ⟨[c], by simpa using hs, ?_⟩
  intro c' hc'
  simp only [List.mem_cons, List.not_mem_nil, or_false] at hc'
  subst hc'
  exact h1 c' hp

theorem four_digit_pre {s r : List Char} {v : Nat} (h : four s = some (v, r)) :
    ∃ pre, s = pre ++ r ∧ ∀ c ∈ pre, isDig c = true := by
  obtain ⟨c1, c2, c3, c4, hs, h1, h2, h3, h4⟩ := four_eq_some h
  refine ⟨[c1, c2, c3, c4], by simpa using hs, ?_⟩
  intro c hc
  simp only [List.mem_cons, List.not_mem_nil, or_false] at hc
  rcases hc with rfl | rfl | rfl | rfl
  · exact h1
  · exact h2
  · exact h3
  · exact h4

theorem chIn_digit {l : List Char} (hl : ∀ x ∈ l, isDig x = true) :
    ∀ c, chIn l c = true → isDig c = true :=
  fun c hc => chIn_imp hl hc

theorem candsOf_digit_pre {t : Tok} {s r : List Char} {v : Nat}
    (ht : t = Tok.Y ∨ t = Tok.y ∨ t = Tok.m ∨ t = Tok.d ∨ t = Tok.H ∨
      t = Tok.I ∨ t = Tok.M ∨ t = Tok.S)
    (h : (v, r) ∈ candsOf t s) :
    ∃ pre, s = pre ++ r ∧ ∀ c ∈ pre, isDig c = true := by
  have hdig : ∀ c : Char, isDig c = true → isDig c = true := fun c hc => hc
  rcases ht with rfl | rfl | rfl | rfl | rfl | rfl | rfl | rfl <;>
    obtain ⟨o, ho, hsome⟩ := mem_opts h <;>
    simp only [List.mem_cons, List.not_mem_nil, or_false] at ho
  · obtain rfl := ho
    exact four_digit_pre hsome
  · obtain rfl := ho
    exact two_digit_pre hsome hdig hdig
  · rcases ho with rfl | rfl | rfl
    · exact two_digit_pre hsome (chIn_digit (by decide)) (chIn_digit (by decide))
    · exact two_digit_pre hsome (chIn_digit (by decide)) (chIn_digit (by decide))
    · exact one_digit_pre hsome (chIn_digit (by decide))
  · rcases ho with rfl | rfl | rfl | rfl
    · exact two_digit_pre hsome (chIn_digit (by decide)) (chIn_digit (by decide))
    · exact two_digit_pre hsome (chIn_digit (by decide)) hdig
    · exact two_digit_pre hsome (chIn_digit (by decide)) (chIn_digit (by decide))
    · exact one_digit_pre hsome (chIn_digit (by decide))
  · rcases ho with rfl | rfl | rfl
    · exact two_digit_pre hsome (chIn_digit (by decide)) (chIn_digit (by decide))
    · exact two_digit_pre hsome (chIn_digit (by decide)) hdig
    · exact one_digit_pre hsome hdig
  · rcases ho with rfl | rfl | rfl
    · exact two_digit_pre hsome (chIn_digit (by decide)) (chIn_digit (by decide))
    · exact two_digit_pre hsome (chIn_digit (by decide)) (chIn_digit (by decide))
    · exact one_digit_pre hsome (chIn_digit (by decide))
  · rcases ho with rfl | rfl
    · exact two_digit_pre hsome (chIn_digit (by decide)) hdig
    · exact one_digit_pre hsome hdig
  · rcases ho with rfl | rfl | rfl
    · exact two_digit_pre hsome (chIn_digit (by decide)) (chIn_digit (by decide))
    · exact two_digit_pre hsome (chIn_digit (by decide)) hdig
    · exact one_digit_pre hsome hdig

theorem candsOf_sound {t : Tok} {s r : List Char} {v : Nat}
    (h : (v, r) ∈ candsOf t s) :
    ∃ pre, s = pre ++ r ∧ ∀ c ∈ pre, charCompat t c := by
  cases t with
  | p =>
    obtain ⟨c1, c2, hs, h1, h2⟩ := ampmCands_mem h
    refine ⟨[c1, c2], by simpa using hs, ?_⟩
    intro c hc
    simp only [List.mem_cons, List.not_mem_nil, or_false] at hc
    rcases hc with rfl | rfl
    · exact h1
    · exact h2
  | lit c0 =>
    have hs := litCands_mem h
    refine ⟨[c0], by simpa using hs, ?_⟩
    intro c hc
    simp only [List.mem_cons, List.not_mem_nil, or_false] at hc
    subst hc
    rfl
  | ws =>
    obtain ⟨pre, hs, hws⟩ := wsCands_mem h
    exact ⟨pre, hs, fun c hc => hws c hc⟩
  | Y => exact candsOf_digit_pre (by simp) h
  | y => exact candsOf_digit_pre (by simp) h
  | m => exact candsOf_digit_pre (by simp) h
  | d => exact candsOf_digit_pre (by simp) h
  | H => exact candsOf_digit_pre (by simp) h
  | I => exact candsOf_digit_pre (by simp) h
  | M => exact candsOf_digit_pre (by simp) h
  | S => exact candsOf_digit_pre (by simp) h

/-- Every character consumed by a successful match is compatible with some
token of the format. -/
theorem matchToks_chars :
    ∀ (toks : List Tok) (s : List Char) (st : RawSt) (out : RawSt) (rest : List Char),
    matchToks toks s st = some (out, rest) →
    ∃ pre, s = pre ++ rest ∧ ∀ c ∈ pre, ∃ t ∈ toks, charCompat t c := by
  intro toks
  induction toks with
  | nil =>
    intro s st out rest h
    simp only [matchToks, Option.some.injEq, Prod.mk.injEq] at h
    exact ⟨[], by simp [h.2], by simp⟩
  | cons t ts ih =>
    intro s st out rest h
    unfold matchToks at h
    obtain ⟨⟨v, r⟩, hvr, hrec⟩ := firstSome_eq_some h
    obtain ⟨pre1, hs1, hc1⟩ := candsOf_sound hvr
    obtain ⟨pre2, hs2, hc2⟩ := ih r _ out rest hrec
    refine ⟨pre1 ++ pre2, by rw [hs1, hs2, List.append_assoc], ?_⟩
    intro c hc
    rcases List.mem_append.mp hc with hc | hc
    · exact ⟨t, by simp, hc1 c hc⟩
    · obtain ⟨t', ht', hcc⟩ := hc2 c hc
      exact ⟨t', by simp [ht'], hcc⟩

/-- A literal of the format occurs in the input whenever the match succeeds. -/
theorem matchToks_lit_mem :
    ∀ (toks : List Tok) (s : List Char) (st : RawSt) (out : RawSt)
      (rest : List Char) (c0 : Char),
    matchToks toks s st = some (out, rest) → Tok.lit c0 ∈ toks → c0 ∈ s := by
  intro toks
  induction toks with
  | nil => intro s st out rest c0 h hmem; simp at hmem
  | cons t ts ih =>
    intro s st out rest c0 h hmem
    unfold matchToks at h
    obtain ⟨⟨v, r⟩, hvr, hrec⟩ := firstSome_eq_some h
    obtain ⟨pre1, hs1, -⟩ := candsOf_sound hvr
    rcases List.mem_cons.mp hmem with rfl | hmem'
    · have := litCands_mem (by simpa [candsOf] using hvr)
      rw [this]
      simp
    · have hr : c0 ∈ r := ih r _ out rest c0 hrec hmem'
      rw [hs1]
      exact List.mem_append.mpr (Or.inr hr)


theorem isDig_digitChar {a : Nat} (h : a ≤ 9) : isDig (Nat.digitChar a) = true := by
  interval_cases a <;> rfl

theorem dval_digitChar {a : Nat} (h : a ≤ 9) : dval (Nat.digitChar a) = a := by
  interval_cases a <;> rfl

theorem isWs_digitChar {a : Nat} (h : a ≤ 9) : isWs (Nat.digitChar a) = false := by
  interval_cases a <;> rfl

theorem candsY_pad (y : Nat) (r : List Char) (hy : y ≤ 9999) :
    candsOf .Y (Nat.digitChar (y / 1000) :: Nat.digitChar (y / 100 % 10) ::
      Nat.digitChar (y / 10 % 10) :: Nat.digitChar (y % 10) :: r) = [(y, r)] := by
  have h1 : y / 1000 ≤ 9 := by omega
  have h2 : y / 100 % 10 ≤ 9 := by omega
  have h3 : y / 10 % 10 ≤ 9 := by omega
  have h4 : y % 10 ≤ 9 := by omega
  have hfour : four (Nat.digitChar (y / 1000) :: Nat.digitChar (y / 100 % 10) ::
      Nat.digitChar (y / 10 % 10) :: Nat.digitChar (y % 10) :: r) = some (y, r) := by
    simp only [four, isDig_digitChar h1, isDig_digitChar h2, isDig_digitChar h3,
      isDig_digitChar h4, Bool.and_self, if_true, dval_digitChar h1,
      dval_digitChar h2, dval_digitChar h3, dval_digitChar h4]
    have hv : 1000 * (y / 1000) + 100 * (y / 100 % 10) + 10 * (y / 10 % 10) +
        y % 10 = y := by omega
    simp [hv]
  simp [candsOf, hfour, opts]

theorem cands_m_pad (m : Nat) (r : List Char) (h1 : 1 ≤ m) (h2 : m ≤ 12) :
    ∃ tl, candsOf .m (Nat.digitChar (m / 10) :: Nat.digitChar (m % 10) :: r) =
      (m, r) :: tl := by
  interval_cases m <;> exact ⟨_, rfl⟩

theorem cands_d_pad (d : Nat) (r : List Char) (h1 : 1 ≤ d) (h2 : d ≤ 31) :
    ∃ tl, candsOf .d (Nat.digitChar (d / 10) :: Nat.digitChar (d % 10) :: r) =
      (d, r) :: tl := by
  interval_cases d <;> exact ⟨_, rfl⟩

theorem cands_H_pad (h : Nat) (r : List Char) (h2 : h ≤ 23) :
    ∃ tl, candsOf .H (Nat.digitChar (h / 10) :: Nat.digitChar (h % 10) :: r) =
      (h, r) :: tl := by
  interval_cases h <;> exact ⟨_, rfl⟩

theorem cands_M_pad (mi : Nat) (r : List Char) (h2 : mi ≤ 59) :
    ∃ tl, candsOf .M (Nat.digitChar (mi / 10) :: Nat.digitChar (mi % 10) :: r) =
      (mi, r) :: tl := by
  interval_cases mi <;> exact ⟨_, rfl⟩

theorem cands_lit (c : Char) (r : List Char) :
    candsOf (.lit c) (c :: r) = [(0, r)] := by
  simp [candsOf, litCands]

theorem cands_ws_single (c : Char) (r : List Char) (h : isWs c = false) :
    candsOf .ws (' ' :: c :: r) = [(0, c :: r)] := by
  have hsp : isWs ' ' = true := rfl
  have hr1 : List.range 1 = [0] := rfl
  simp [candsOf, wsCands, List.takeWhile, hsp, h, hr1]

/-- The canonical format fully matches the canonical string of in-range
fields, capturing exactly those fields. -/
theorem canonical_match (y m d h mi : Nat) (hy : y ≤ 9999)
    (hm1 : 1 ≤ m) (hm2 : m ≤ 12) (hd1 : 1 ≤ d) (hd2 : d ≤ 31)
    (hh : h ≤ 23) (hmi : mi ≤ 59) :
    matchToks canonicalFmt (canonicalChars y m d h mi) initSt =
      some ({ vY := some y, vm := some m, vd := some d, vH := some h,
              vM := some mi }, []) := by
  obtain ⟨tlm, hcm⟩ := cands_m_pad m
    ('-' :: (pad2 d ++ ' ' :: (pad2 h ++ ':' :: pad2 mi))) hm1 hm2
  obtain ⟨tld, hcd⟩ := cands_d_pad d (' ' :: (pad2 h ++ ':' :: pad2 mi)) hd1 hd2
  obtain ⟨tlh, hch⟩ := cands_H_pad h (':' :: pad2 mi) hh
  obtain ⟨tlmi, hcmi⟩ := cands_M_pad mi [] hmi
  have hws : candsOf .ws (' ' :: (pad2 h ++ ':' :: pad2 mi)) =
      [(0, pad2 h ++ ':' :: pad2 mi)] := by
    have : h / 10 ≤ 9 := by omega
    exact cands_ws_single _ _ (isWs_digitChar this)
  apply matchToks_cons_head (candsY_pad y _ hy)
  apply matchToks_cons_head (cands_lit '-' _)
  apply matchToks_cons_head hcm
  apply matchToks_cons_head (cands_lit '-' _)
  apply matchToks_cons_head hcd
  apply matchToks_cons_head hws
  apply matchToks_cons_head hch
  apply matchToks_cons_head (cands_lit ':' _)
  apply matchToks_cons_head hcmi
  rfl

theorem daysInMonth_le (y m : Nat) : daysInMonth y m ≤ 31 := by
  unfold daysInMonth
  split_ifs <;> simp

/-- `convert` on a canonical string with valid fields. -/
theorem canonical_convert (y m d h mi : Nat) (hy1 : 1 ≤ y) (hy2 : y ≤ 9999)
    (hm1 : 1 ≤ m) (hm2 : m ≤ 12) (hd1 : 1 ≤ d) (hd2 : d ≤ daysInMonth y m)
    (hh : h ≤ 23) (hmi : mi ≤ 59) :
    convert (canonicalChars y m d h mi) canonicalFmt = some ⟨y, m, d, h, mi, 0, 0⟩ := by
  have hd31 : d ≤ 31 := le_trans hd2 (daysInMonth_le y m)
  have hdok : dateOK y m d := ⟨hy1, hy2, hm1, hm2, hd1, hd2⟩
  have hps : pyStrptime (canonicalChars y m d h mi) canonicalFmt =
      some ⟨y, m, d, h, mi, 0, wdayOf y m d⟩ := by
    unfold pyStrptime
    rw [canonical_match y m d h mi hy2 hm1 hm2 hd1 hd31 hh hmi]
    show (if dateOK y m d then
        some (⟨y, m, d, h, mi, 0, wdayOf y m d⟩ : Struct7) else none) = _
    rw [if_pos hdok]
  have hwd : wdayOf y m d ≤ 999999 :=
    le_trans (Nat.le_of_lt (Nat.mod_lt _ (by omega))) (by omega)
  have hpd : pyDatetime y m d h mi 0 (wdayOf y m d) =
      some ⟨y, m, d, h, mi, 0, wdayOf y m d⟩ := by
    unfold pyDatetime
    rw [if_pos ⟨hdok, hh, hmi, by omega, hwd⟩]
  unfold convert
  rw [hps]
  show (match pyDatetime y m d h mi 0 (wdayOf y m d) with
    | none => none
    | some rv => some { rv with microsecond := 0 }) = _
  rw [hpd]

theorem canonicalChars_length (y m d h mi : Nat) :
    (canonicalChars y m d h mi).length = 16 := by
  simp [canonicalChars, pad4, pad2]

theorem canonical_not_now (y m d h mi : Nat) :
    pyLower (canonicalChars y m d h mi) ∉ nowAliases := by
  intro hmem
  have hlow : pyLower (canonicalChars y m d h mi) = "now".data := by
    simpa [nowAliases, underscoreGettext] using hmem
  have hlen := congrArg List.length hlow
  rw [show ("now".data).length = 3 from rfl] at hlen
  unfold pyLower at hlen
  rw [List.length_map, canonicalChars_length] at hlen
  omega

/-- `parse_datetime` on a canonical string with valid fields. -/
theorem parse_canonical (y m d h mi : Nat) (now : DateTime) (r : Bool)
    (hy1 : 1 ≤ y) (hy2 : y ≤ 9999)
    (hm1 : 1 ≤ m) (hm2 : m ≤ 12) (hd1 : 1 ≤ d) (hd2 : d ≤ daysInMonth y m)
    (hh : h ≤ 23) (hmi : mi ≤ 59) :
    parse_datetime (some (canonicalChars y m d h mi)) now r =
      .ok ⟨y, m, d, h, mi, 0, 0⟩ := by
  simp only [parse_datetime]
  rw [if_neg (canonical_not_now y m d h mi)]
  rw [canonical_convert y m d h mi hy1 hy2 hm1 hm2 hd1 hd2 hh hmi]

/-! Decimal formatting lemmas. -/

theorem digitsGo_lt {fuel n : Nat} {acc : List Char} (hf : 0 < fuel)
    (hn : n < 10) : digitsGo fuel n acc = Nat.digitChar n :: acc := by
  cases fuel with
  | zero => exact absurd hf (by omega)
  | succ f => simp [digitsGo, hn]

theorem digitsGo_ge {fuel n : Nat} {acc : List Char} (hf : 0 < fuel)
    (hn : 10 ≤ n) : digitsGo fuel n acc =
      digitsGo (fuel - 1) (n / 10) (Nat.digitChar (n % 10) :: acc) := by
  cases fuel with
  | zero => exact absurd hf (by omega)
  | succ f => simp [digitsGo, show ¬n < 10 by omega]

theorem natDigits_small {n : Nat} (h : n ≤ 9) :
    natDigits n = [Nat.digitChar n] := by
  unfold natDigits
  cases n with
  | zero => rfl
  | succ k => exact digitsGo_lt (Nat.succ_pos _) (by omega)

theorem natDigits_two {n : Nat} (h1 : 10 ≤ n) (h2 : n ≤ 99) :
    natDigits n = [Nat.digitChar (n / 10), Nat.digitChar (n % 10)] := by
  unfold natDigits
  rw [digitsGo_ge (by omega) h1, digitsGo_lt (by omega) (by omega)]

theorem natDigits_four {n : Nat} (h1 : 1000 ≤ n) (h2 : n ≤ 9999) :
    natDigits n = [Nat.digitChar (n / 1000), Nat.digitChar (n / 100 % 10),
      Nat.digitChar (n / 10 % 10), Nat.digitChar (n % 10)] := by
  unfold natDigits
  rw [digitsGo_ge (by omega) (by omega), digitsGo_ge (by omega) (by omega),
    digitsGo_ge (by omega) (by omega), digitsGo_lt (by omega) (by omega)]
  rw [Nat.div_div_eq_div_mul, Nat.div_div_eq_div_mul, Nat.div_div_eq_div_mul]

theorem pad02_eq_pad2 {n : Nat} (h : n ≤ 99) : pad02 n = pad2 n := by
  unfold pad02 pad2
  by_cases h10 : n < 10
  · rw [if_pos h10, natDigits_small (by omega)]
    rw [show n / 10 = 0 by omega, show n % 10 = n by omega]
    rfl
  · rw [if_neg h10, natDigits_two (by omega) h]

/-- `format_system_datetime` reproduces the canonical string when the year
has four digits. -/
theorem format_canonical (y m d h mi sec mic : Nat) (r : Bool)
    (hy1 : 1000 ≤ y) (hy2 : y ≤ 9999) (hm : m ≤ 99) (hd : d ≤ 99)
    (hh : h ≤ 99) (hmi : mi ≤ 99) :
    format_system_datetime ⟨y, m, d, h, mi, sec, mic⟩ r = canonicalChars y m d h mi := by
  simp only [format_system_datetime]
  rw [natDigits_four hy1 hy2, pad02_eq_pad2 hm, pad02_eq_pad2 hd,
    pad02_eq_pad2 hh, pad02_eq_pad2 hmi]
  rfl

/-! Stage analysis of `parse_datetime`. -/

theorem convert_microsecond {s : List Char} {fmt : Fmt} {dt : DateTime}
    (h : convert s fmt = some dt) : dt.microsecond = 0 := by
  unfold convert at h
  rcases hps : pyStrptime s fmt with - | t <;> rw [hps] at h
  · simp at h
  · dsimp only at h
    rcases hpd : pyDatetime t.year t.month t.day t.hour t.minute t.second t.wday
      with - | rv <;> rw [hpd] at h
    · simp at h
    · obtain rfl := (Option.some.inj h).symm
      rfl

theorem convert_some_matchfull {s : List Char} {fmt : Fmt} {dt : DateTime}
    (h : convert s fmt = some dt) :
    ∃ st, matchToks fmt s initSt = some (st, []) := by
  unfold convert at h
  rcases hps : pyStrptime s fmt with - | t <;> rw [hps] at h
  · simp at h
  · clear h
    unfold pyStrptime at hps
    rcases hm : matchToks fmt s initSt with - | str
    · rw [hm] at hps
      simp at hps
    · obtain ⟨st, rest⟩ := str
      rw [hm] at hps
      cases rest with
      | nil => exact ⟨st, rfl⟩
      | cons a l =>
        dsimp only at hps
        simp at hps

theorem pyStrptime_leftover {s : List Char} {fmt : Fmt} {st : RawSt}
    {rest : List Char} (hm : matchToks fmt s initSt = some (st, rest))
    (hne : rest ≠ []) : pyStrptime s fmt = none := by
  unfold pyStrptime
  rw [hm]
  cases rest with
  | nil => exact absurd rfl hne
  | cons a l => rfl

theorem convert_of_pyStrptime_none {s : List Char} {fmt : Fmt}
    (h : pyStrptime s fmt = none) : convert s fmt = none := by
  unfold convert
  rw [h]

theorem timeFormats_charCompat {t : Fmt} (ht : t ∈ TIME_FORMATS) {tok : Tok}
    (htok : tok ∈ t) {c : Char} (hcc : charCompat tok c) : timeCompat c := by
  have hcase : tok = Tok.H ∨ tok = Tok.I ∨ tok = Tok.M ∨ tok = Tok.S ∨
      tok = Tok.lit ':' ∨ tok = Tok.ws ∨ tok = Tok.p := by
    fin_cases ht
    · simp only [List.mem_cons, List.not_mem_nil, or_false] at htok
      rcases htok with rfl | rfl | rfl <;> simp
    · simp only [List.mem_cons, List.not_mem_nil, or_false] at htok
      rcases htok with rfl | rfl | rfl | rfl | rfl <;> simp
    · simp only [List.mem_cons, List.not_mem_nil, or_false] at htok
      rcases htok with rfl | rfl | rfl | rfl | rfl <;> simp
    · simp only [List.mem_cons, List.not_mem_nil, or_false] at htok
      rcases htok with rfl | rfl | rfl | rfl | rfl | rfl | rfl <;> simp
  rcases hcase with rfl | rfl | rfl | rfl | rfl | rfl | rfl
  · exact Or.inl hcc
  · exact Or.inl hcc
  · exact Or.inl hcc
  · exact Or.inl hcc
  · exact Or.inr (Or.inl hcc)
  · exact Or.inr (Or.inr (Or.inl hcc))
  · exact Or.inr (Or.inr (Or.inr hcc))

theorem times_imply_timeCompat {s : List Char} {val : DateTime}
    (h : firstSome TIME_FORMATS (fun fmt => convert s fmt) = some val) :
    ∀ c ∈ s, timeCompat c := by
  obtain ⟨t, htmem, hconv⟩ := firstSome_eq_some h
  obtain ⟨st, hm⟩ := convert_some_matchfull hconv
  obtain ⟨pre, hpre, hcomp⟩ := matchToks_chars t s initSt st [] hm
  rw [List.append_nil] at hpre
  subst hpre
  intro c hc
  obtain ⟨tok, htok, hcc⟩ := hcomp c hc
  exact timeFormats_charCompat htmem htok hcc

theorem canonical_fails_of_timeCompat {s : List Char}
    (hall : ∀ c ∈ s, timeCompat c) : convert s canonicalFmt = none := by
  rcases hc : convert s canonicalFmt with - | dt
  · rfl
  · obtain ⟨st, hm⟩ := convert_some_matchfull hc
    have hdash : '-' ∈ s :=
      matchToks_lit_mem canonicalFmt s initSt st [] '-' hm (by simp [canonicalFmt])
    exact absurd (hall '-' hdash) (by decide)

theorem not_now_of_timeCompat {s : List Char} (hall : ∀ c ∈ s, timeCompat c) :
    pyLower s ∉ nowAliases := by
  intro hmem
  have hlow : pyLower s = "now".data := by
    simpa [nowAliases, underscoreGettext] using hmem
  unfold pyLower at hlow
  rw [show ("now".data) = ['n', 'o', 'w'] from rfl] at hlow
  rcases s with - | ⟨a, s⟩
  · simp at hlow
  rcases s with - | ⟨b, s⟩
  · simp at hlow
  rcases s with - | ⟨c, s⟩
  · simp at hlow
  rcases s with - | ⟨e, s⟩
  case cons.cons.cons.cons => simp at hlow
  simp only [List.map_cons, List.map_nil, List.cons.injEq, and_true] at hlow
  obtain ⟨-, -, hw⟩ := hlow
  have hcc := hall c (by simp)
  rcases hcc with hd | hcol | hws | hap
  · unfold asciiLower at hw
    by_cases hAZ : 65 ≤ c.toNat ∧ c.toNat ≤ 90
    · simp only [isDig, decide_eq_true_eq] at hd
      omega
    · rw [if_neg hAZ] at hw
      subst hw
      exact absurd hd (by decide)
  · subst hcol
    exact absurd hw (by decide)
  · have hcw : c ∈ wsChars := by simpa [isWs] using hws
    fin_cases hcw <;> exact absurd hw (by decide)
  · rw [hw] at hap
    exact absurd hap (by decide)

theorem parse_time_only {s : List Char} {val : DateTime} (now : DateTime) (r : Bool)
    (h : firstSome TIME_FORMATS (fun fmt => convert s fmt) = some val) :
    parse_datetime (some s) now r =
      .ok { now with hour := val.hour, minute := val.minute,
                     second := val.second, microsecond := 0 } := by
  have hall : ∀ c ∈ s, timeCompat c := times_imply_timeCompat h
  simp only [parse_datetime]
  rw [if_neg (not_now_of_timeCompat hall), canonical_fails_of_timeCompat hall, h]

theorem parse_combined_stage {s : List Char} (now : DateTime) (r : Bool)
    (hns : pyLower s ∉ nowAliases)
    (hcan : convert s canonicalFmt = none)
    (htime : firstSome TIME_FORMATS (fun fmt => convert s fmt) = none) :
    parse_datetime (some s) now r =
      (match firstSome combined (fun fmt => convert s fmt) with
       | some dt => .ok dt
       | none => .error invalidMsg) := by
  simp only [parse_datetime]
  rw [if_neg hns, hcan, htime]

theorem parse_fail_iff {s : List Char} (now : DateTime) (r : Bool)
    (hns : pyLower s ∉ nowAliases) :
    parse_datetime (some s) now r = .error invalidMsg ↔
      ∀ fmt ∈ allCandidates, convert s fmt = none := by
  simp only [parse_datetime]
  rw [if_neg hns]
  constructor
  · intro h fmt hfmt
    rcases hc : convert s canonicalFmt with - | dtc <;> rw [hc] at h
    · rcases ht : firstSome TIME_FORMATS (fun fmt => convert s fmt) with - | val <;>
        rw [ht] at h
      · rcases hcb : firstSome combined (fun fmt => convert s fmt) with - | dtc <;>
          rw [hcb] at h
        · simp only [allCandidates, List.mem_cons, List.mem_append] at hfmt
          rcases hfmt with rfl | hfmt | hfmt
          · exact hc
          · exact (firstSome_eq_none.mp ht) fmt hfmt
          · exact (firstSome_eq_none.mp hcb) fmt hfmt
        · simp at h
      · simp at h
    · simp at h
  · intro hall
    have hc : convert s canonicalFmt = none :=
      hall _ (by simp [allCandidates])
    have ht : firstSome TIME_FORMATS (fun fmt => convert s fmt) = none :=
      firstSome_eq_none.mpr fun fmt hfmt => hall fmt (by simp [allCandidates, hfmt])
    have hcb : firstSome combined (fun fmt => convert s fmt) = none :=
      firstSome_eq_none.mpr fun fmt hfmt => hall fmt (by simp [allCandidates, hfmt])
    rw [hc, ht, hcb]

theorem parse_error_unique {s : List Char} {now : DateTime} {r : Bool}
    {e : List Char} (h : parse_datetime (some s) now r = .error e) :
    e = invalidMsg := by
  simp only [parse_datetime] at h
  by_cases hn : pyLower s ∈ nowAliases
  · rw [if_pos hn] at h
    simp at h
  · rw [if_neg hn] at h
    rcases hc : convert s canonicalFmt with - | dtc <;> rw [hc] at h
    · rcases ht : firstSome TIME_FORMATS (fun fmt => convert s fmt) with - | val <;>
        rw [ht] at h
      · rcases hcb : firstSome combined (fun fmt => convert s fmt) with - | dtc <;>
          rw [hcb] at h
        · simp at h
          exact h.symm
        · simp at h
      · simp at h
    · simp at h

theorem parse_ok_micro {string : Option (List Char)} {now : DateTime} {r : Bool}
    {dt : DateTime} (h : parse_datetime string now r = .ok dt) :
    dt.microsecond = 0 := by
  cases string with
  | none =>
    simp only [parse_datetime, Except.ok.injEq] at h
    rw [← h]
  | some s =>
    simp only [parse_datetime] at h
    by_cases hn : pyLower s ∈ nowAliases
    · rw [if_pos hn] at h
      simp only [Except.ok.injEq] at h
      rw [← h]
    · rw [if_neg hn] at h
      rcases hc : convert s canonicalFmt with - | dtc <;> rw [hc] at h
      · rcases ht : firstSome TIME_FORMATS (fun fmt => convert s fmt) with - | val <;>
          rw [ht] at h
        · rcases hcb : firstSome combined (fun fmt => convert s fmt) with - | dtc <;>
            rw [hcb] at h
          · simp at h
          · simp only [Except.ok.injEq] at h
            obtain ⟨fmt, -, hconv⟩ := firstSome_eq_some hcb
            rw [← h]
            exact convert_microsecond hconv
        · simp only [Except.ok.injEq] at h
          rw [← h]
      · simp only [Except.ok.injEq] at h
        rw [← h]
        exact convert_microsecond hc

/-! Phone number field lemmas. -/

theorem phoneSplit_props {ds g1 g2 g3 : List Char} (hlen : ds.length = 10)
    (hdig : ds.all isDig = true) (h : phoneSplit ds = (g1, g2, g3)) :
    g1.length = 3 ∧ g2.length = 3 ∧ g3.length = 4 ∧
    (∀ c ∈ g1 ++ (g2 ++ g3), isDig c = true) ∧ ds = g1 ++ (g2 ++ g3) := by
  simp only [phoneSplit, Prod.mk.injEq] at h
  obtain ⟨hg1, hg2, hg3⟩ := h
  subst hg1
  subst hg2
  subst hg3
  have hds : ds = ds.take 3 ++ ((ds.drop 3).take 3 ++ (ds.drop 3).drop 3) := by
    rw [List.take_append_drop, List.take_append_drop]
  have hdig' := List.all_eq_true.mp hdig
  refine ⟨?_, ?_, ?_, ?_, hds⟩
  · rw [List.length_take, hlen]
    omega
  · rw [List.length_take, List.length_drop, hlen]
    omega
  · rw [List.length_drop, List.length_drop, hlen]
  · intro c hc
    apply hdig'
    rcases List.mem_append.mp hc with hc | hc
    · exact List.mem_of_mem_take hc
    · rcases List.mem_append.mp hc with hc | hc
      · exact List.mem_of_mem_drop (List.mem_of_mem_take hc)
      · exact List.mem_of_mem_drop (List.mem_of_mem_drop hc)

theorem phoneMatch_props {s g1 g2 g3 : List Char}
    (h : phoneMatch s = some (g1, g2, g3)) :
    g1.length = 3 ∧ g2.length = 3 ∧ g3.length = 4 ∧
    (∀ c ∈ g1 ++ (g2 ++ g3), isDig c = true) ∧
    (s = g1 ++ (g2 ++ g3) ∨ s = '1' :: (g1 ++ (g2 ++ g3))) := by
  match s with
  | [] => simp [phoneMatch] at h
  | c :: rest =>
    simp only [phoneMatch] at h
    by_cases h1 : c = '1' ∧ rest.length = 10 ∧ rest.all isDig
    · rw [if_pos h1] at h
      obtain ⟨hc, hlen, hdig⟩ := h1
      obtain ⟨p1, p2, p3, p4, p5⟩ :=
        phoneSplit_props hlen hdig (Option.some.inj h)
      exact ⟨p1, p2, p3, p4, Or.inr (by rw [hc, ← p5])⟩
    · rw [if_neg h1] at h
      by_cases h2 : (c :: rest).length = 10 ∧ (c :: rest).all isDig
      · rw [if_pos h2] at h
        obtain ⟨hlen, hdig⟩ := h2
        obtain ⟨p1, p2, p3, p4, p5⟩ :=
          phoneSplit_props hlen hdig (Option.some.inj h)
        exact ⟨p1, p2, p3, p4, Or.inl p5⟩
      · rw [if_neg h2] at h
        simp at h

/-- C10: every non-empty value accepted by `USPhoneNumberField.convert`
normalizes to `ddd-ddd-dddd` with a first digit other than 0/1, the groups
coming from the stripped digit sequence after dropping an optional
leading `'1'`. -/
theorem c10_phone_normalized (required : Bool) (v out : List Char)
    (hne : v ≠ []) (h : usPhoneConvert required v = .ok out) :
    ∃ g1 g2 g3 : List Char,
      out = g1 ++ '-' :: (g2 ++ '-' :: g3) ∧
      g1.length = 3 ∧ g2.length = 3 ∧ g3.length = 4 ∧
      (∀ c ∈ g1 ++ (g2 ++ g3), isDig c = true) ∧
      (∀ c0, g1.head? = some c0 → c0 ≠ '0' ∧ c0 ≠ '1') ∧
      (phoneStrip v = g1 ++ (g2 ++ g3) ∨
        phoneStrip v = '1' :: (g1 ++ (g2 ++ g3))) := by
  unfold usPhoneConvert at h
  unfold textFieldConvert at h
  rw [if_neg (fun hp => hne hp.2)] at h
  dsimp only at h
  rw [if_neg (fun hp => hne hp.1)] at h
  rcases hpm : phoneMatch (phoneStrip v) with - | ⟨g1, g2, g3⟩ <;> rw [hpm] at h
  · simp at h
  · dsimp only at h
    by_cases h01 : headIs01 g1 = true
    · rw [if_pos h01] at h
      simp at h
    · rw [if_neg h01] at h
      simp only [Except.ok.injEq] at h
      subst h
      obtain ⟨hl1, hl2, hl3, hdig, hsplit⟩ := phoneMatch_props hpm
      refine ⟨g1, g2, g3, rfl, hl1, hl2, hl3, hdig, ?_, hsplit⟩
      intro c0 hc0
      match g1, hc0 with
      | c :: g', hc0 =>
        have hcc : c0 = c := by
          simpa using hc0.symm
        subst hcc
        simp only [headIs01, Bool.or_eq_true, decide_eq_true_eq] at h01
        push_neg at h01
        exact h01

/-! The claims. -/

/-- C1 (corrected by counterexample below, amended): for every canonical
string `"YYYY-MM-DD HH:MM"` whose fields are in valid ranges and whose year
is at least 1000, `parse_datetime` succeeds with exactly those fields and
`format_system_datetime` maps the result back to the original string. -/
theorem c1_roundtrip_amended (y m d h mi : Nat) (now : DateTime) (r1 r2 : Bool)
    (hy1 : 1000 ≤ y) (hy2 : y ≤ 9999) (hm1 : 1 ≤ m) (hm2 : m ≤ 12)
    (hd1 : 1 ≤ d) (hd2 : d ≤ daysInMonth y m) (hh : h ≤ 23) (hmi : mi ≤ 59) :
    ∃ dt, parse_datetime (some (canonicalChars y m d h mi)) now r1 = .ok dt ∧
      format_system_datetime dt r2 = canonicalChars y m d h mi := by
  refine ⟨⟨y, m, d, h, mi, 0, 0⟩, ?_, ?_⟩
  · exact parse_canonical y m d h mi now r1 (by omega) hy2 hm1 hm2 hd1 hd2 hh hmi
  · exact format_canonical y m d h mi 0 0 r2 hy1 hy2 (by omega)
      (le_trans hd2 (le_trans (daysInMonth_le y m) (by omega)))
      (by omega) (by omega)

/-- C1 witness: the canonical string `"2020-03-04 14:30"` round-trips. -/
theorem c1_roundtrip_amended_witness :
    ∃ dt, parse_datetime (some (canonicalChars 2020 3 4 14 30))
        ⟨2021, 7, 8, 9, 10, 11, 121314⟩ true = .ok dt ∧
      format_system_datetime dt true = canonicalChars 2020 3 4 14 30 :=
  c1_roundtrip_amended 2020 3 4 14 30 ⟨2021, 7, 8, 9, 10, 11, 121314⟩ true true
    (by decide) (by decide) (by decide) (by decide) (by decide) (by decide)
    (by decide) (by decide)

/-- C1 counterexample: the canonical string `"0500-01-02 03:04"` parses
successfully (to year 500), but formatting the result yields
`"500-01-02 03:04"` — the year is printed unpadded, so the round-trip fails
for canonical strings with a year below 1000. -/
theorem c1_roundtrip_counterexample :
    parse_datetime (some "0500-01-02 03:04".data)
        ⟨2021, 7, 8, 9, 10, 11, 121314⟩ true = .ok ⟨500, 1, 2, 3, 4, 0, 0⟩ ∧
    format_system_datetime ⟨500, 1, 2, 3, 4, 0, 0⟩ true = "500-01-02 03:04".data ∧
    "500-01-02 03:04".data ≠ "0500-01-02 03:04".data :=
  ⟨rfl, rfl, by decide⟩

/-- C2 (corrected, amended): `format_system_datetime` is total and yields the
decimal year (unpadded — four digits exactly when `1000 ≤ year ≤ 9999`)
followed by `-MM-DD HH:MM` with month, day, hour and minute zero-padded to
two digits and no seconds. -/
theorem c2_format_amended (dt : DateTime) (r : Bool)
    (hmo : dt.month ≤ 99) (hd : dt.day ≤ 99) (hh : dt.hour ≤ 99)
    (hmi : dt.minute ≤ 99) :
    format_system_datetime dt r =
      natDigits dt.year ++ '-' :: (pad2 dt.month ++ '-' :: (pad2 dt.day ++
        ' ' :: (pad2 dt.hour ++ ':' :: pad2 dt.minute))) ∧
    (1000 ≤ dt.year → dt.year ≤ 9999 →
      format_system_datetime dt r =
        canonicalChars dt.year dt.month dt.day dt.hour dt.minute) := by
  constructor
  · simp only [format_system_datetime]
    rw [pad02_eq_pad2 hmo, pad02_eq_pad2 hd, pad02_eq_pad2 hh, pad02_eq_pad2 hmi]
  · intro hy1 hy2
    obtain ⟨y, m, d, h, mi, sec, mic⟩ := dt
    exact format_canonical y m d h mi sec mic r hy1 hy2 hmo hd hh hmi

/-- C2 witness at a concrete timestamp. -/
theorem c2_format_amended_witness :
    format_system_datetime ⟨2020, 3, 4, 14, 30, 0, 0⟩ true =
      natDigits 2020 ++ '-' :: (pad2 3 ++ '-' :: (pad2 4 ++
        ' ' :: (pad2 14 ++ ':' :: pad2 30))) ∧
    (1000 ≤ (2020 : Nat) → (2020 : Nat) ≤ 9999 →
      format_system_datetime ⟨2020, 3, 4, 14, 30, 0, 0⟩ true =
        canonicalChars 2020 3 4 14 30) :=
  c2_format_amended ⟨2020, 3, 4, 14, 30, 0, 0⟩ true (by decide) (by decide)
    (by decide) (by decide)

/-- C2 counterexample: the valid timestamp year 500 is formatted with a
three-character, unpadded year, not the claimed zero-padded four-digit
`YYYY` form. -/
theorem c2_format_counterexample :
    format_system_datetime ⟨500, 1, 2, 3, 4, 0, 0⟩ true = "500-01-02 03:04".data ∧
    (format_system_datetime ⟨500, 1, 2, 3, 4, 0, 0⟩ true).length = 15 ∧
    format_system_datetime ⟨500, 1, 2, 3, 4, 0, 0⟩ true ≠ canonicalChars 500 1 2 3 4 :=
  ⟨rfl, rfl, by decide⟩

/-- C3: outside the now-shortcut, `parse_datetime` fails exactly when no
candidate format converts the input, the only error is
`'invalid date format'`, and a match leaving unconsumed characters is
rejected. -/
theorem c3_invalid_format (now : DateTime) (r : Bool) (s : List Char)
    (hns : pyLower s ∉ nowAliases) :
    (parse_datetime (some s) now r = .error invalidMsg ↔
      ∀ fmt ∈ allCandidates, convert s fmt = none) ∧
    (∀ e, parse_datetime (some s) now r = .error e → e = invalidMsg) ∧
    (∀ fmt st rest, matchToks fmt s initSt = some (st, rest) → rest ≠ [] →
      convert s fmt = none) := by
  refine ⟨parse_fail_iff now r hns, fun e he => parse_error_unique he, ?_⟩
  intro fmt st rest hm hne
  exact convert_of_pyStrptime_none (pyStrptime_leftover hm hne)

/-- C3 witness: `parse_datetime("not-a-date")` fails with the
`invalid date format` error. -/
theorem c3_invalid_format_witness :
    parse_datetime (some "not-a-date".data) ⟨2021, 7, 8, 9, 10, 11, 121314⟩ true =
      .error invalidMsg :=
  (c3_invalid_format ⟨2021, 7, 8, 9, 10, 11, 121314⟩ true "not-a-date".data
    (by decide)).1.mpr (by decide)

/-- C4: whenever the time-only stage succeeds with value `val`,
`parse_datetime` returns today's date (the `now` oracle's year/month/day)
combined with `val`'s hour, minute and second, and microsecond 0. -/
theorem c4_time_only (now : DateTime) (r : Bool) (s : List Char) (val : DateTime)
    (h : firstSome TIME_FORMATS (fun fmt => convert s fmt) = some val) :
    parse_datetime (some s) now r =
      .ok { now with hour := val.hour, minute := val.minute,
                     second := val.second, microsecond := 0 } :=
  parse_time_only now r h

/-- C4 witness: `parse_datetime("14:30")` keeps the oracle's date and sets
hour 14, minute 30, second 0. -/
theorem c4_time_only_witness :
    parse_datetime (some "14:30".data) ⟨2021, 7, 8, 9, 10, 11, 121314⟩ true =
      .ok ⟨2021, 7, 8, 14, 30, 0, 0⟩ :=
  c4_time_only ⟨2021, 7, 8, 9, 10, 11, 121314⟩ true "14:30".data
    ⟨1900, 1, 1, 14, 30, 0, 0⟩ rfl

/-- C5: `"03/04/2020 14:30"` and `"14:30 03/04/2020"` both parse to the same
timestamp 2020-03-04 14:30:00. -/
theorem c5_date_time_orders (now : DateTime) (r1 r2 : Bool) :
    parse_datetime (some "03/04/2020 14:30".data) now r1 =
      .ok ⟨2020, 3, 4, 14, 30, 0, 0⟩ ∧
    parse_datetime (some "14:30 03/04/2020".data) now r2 =
      .ok ⟨2020, 3, 4, 14, 30, 0, 0⟩ :=
  ⟨rfl, rfl⟩

/-- C6: a `None` input, or any input whose lowercase form is `"now"` (or the
localized equivalent), short-circuits to the current UTC time truncated to
seconds. -/
theorem c6_now_shortcut (string : Option (List Char)) (now : DateTime) (r : Bool)
    (h : string = none ∨ ∃ s, string = some s ∧ pyLower s ∈ nowAliases) :
    parse_datetime string now r = .ok { now with microsecond := 0 } := by
  rcases h with rfl | ⟨s, rfl, hs⟩
  · rfl
  · simp only [parse_datetime]
    rw [if_pos hs]

/-- C6 witness: `"NOW"` with a nonzero-microsecond oracle. -/
theorem c6_now_shortcut_witness :
    parse_datetime (some "NOW".data) ⟨2020, 5, 6, 7, 8, 9, 123456⟩ true =
      .ok ⟨2020, 5, 6, 7, 8, 9, 0⟩ :=
  c6_now_shortcut (some "NOW".data) ⟨2020, 5, 6, 7, 8, 9, 123456⟩ true
    (Or.inr ⟨_, rfl, by decide⟩)

/-- C7: once the earlier stages have failed, `parse_datetime` tries the
`combined()` sequence — which contains `t + ' ' + d` and `d + ' ' + t` for
every time format `t` and date format `d`, in that pairwise order — and
returns the result of the first candidate that converts the whole input;
if none does, it fails. -/
theorem c7_combined_stage (now : DateTime) (r : Bool) (s : List Char)
    (hns : pyLower s ∉ nowAliases)
    (hcan : convert s canonicalFmt = none)
    (htime : firstSome TIME_FORMATS (fun fmt => convert s fmt) = none) :
    (∀ t ∈ TIME_FORMATS, ∀ d ∈ DATE_FORMATS,
      (t ++ Tok.ws :: d) ∈ combined ∧ (d ++ Tok.ws :: t) ∈ combined) ∧
    (∀ i fmt dt, combined.get? i = some fmt → convert s fmt = some dt →
      (∀ j, j < i → ∀ fmt', combined.get? j = some fmt' → convert s fmt' = none) →
      parse_datetime (some s) now r = .ok dt) ∧
    (firstSome combined (fun fmt => convert s fmt) = none →
      parse_datetime (some s) now r = .error invalidMsg) := by
  refine ⟨?_, ?_, ?_⟩
  · intro t ht d hd
    constructor
    · exact List.mem_flatMap.mpr ⟨t, ht, List.mem_flatMap.mpr ⟨d, hd, by simp⟩⟩
    · exact List.mem_flatMap.mpr ⟨t, ht, List.mem_flatMap.mpr ⟨d, hd, by simp⟩⟩
  · intro i fmt dt hget hconv hbefore
    rw [parse_combined_stage now r hns hcan htime]
    rw [firstSome_at_index hget hconv hbefore]
  · intro hnone
    rw [parse_combined_stage now r hns hcan htime, hnone]

/-- C7 witness: `"03/04/2020 14:30"` reaches the combined stage, the first
candidate `'%H:%M %m/%d/%Y'` fails, and the second, `'%m/%d/%Y %H:%M'`,
supplies the result. -/
theorem c7_combined_stage_witness :
    parse_datetime (some "03/04/2020 14:30".data)
        ⟨2021, 7, 8, 9, 10, 11, 121314⟩ true = .ok ⟨2020, 3, 4, 14, 30, 0, 0⟩ := by
  refine (c7_combined_stage ⟨2021, 7, 8, 9, 10, 11, 121314⟩ true
    "03/04/2020 14:30".data (by decide) (by decide) (by decide)).2.1
    1 _ ⟨2020, 3, 4, 14, 30, 0, 0⟩ rfl rfl ?_
  intro j hj fmt' hget'
  have hj0 : j = 0 := by omega
  subst hj0
  have hfmt' : fmt' = [Tok.H, Tok.lit ':', Tok.M, Tok.ws,
      Tok.m, Tok.lit '/', Tok.d, Tok.lit '/', Tok.Y] :=
    (Option.some.inj hget').symm
  subst hfmt'
  decide

/-- C8: the `rebase` flag does not alter `parse_datetime`'s behaviour: with
the same current-time oracle, both flag values give identical results on
every input. -/
theorem c8_rebase_independent (string : Option (List Char)) (now : DateTime) :
    parse_datetime string now true = parse_datetime string now false := rfl

/-- C9: every timestamp `parse_datetime` returns, on any branch, has
microsecond 0. -/
theorem c9_microsecond_zero (string : Option (List Char)) (now : DateTime)
    (r : Bool) (dt : DateTime) (h : parse_datetime string now r = .ok dt) :
    dt.microsecond = 0 :=
  parse_ok_micro h

/-- C9 witness: the timestamp parsed from `"09:08:07"` has microsecond 0. -/
theorem c9_microsecond_zero_witness :
    (⟨2021, 7, 8, 9, 8, 7, 0⟩ : DateTime).microsecond = 0 :=
  c9_microsecond_zero (some "09:08:07".data) ⟨2021, 7, 8, 1, 2, 3, 456789⟩ true
    ⟨2021, 7, 8, 9, 8, 7, 0⟩ rfl

/-- C10 witness: `'1.(555)   555 - 5555'` normalizes to `'555-555-5555'`. -/
theorem c10_phone_normalized_witness :
    ∃ g1 g2 g3 : List Char,
      "555-555-5555".data = g1 ++ '-' :: (g2 ++ '-' :: g3) ∧
      g1.length = 3 ∧ g2.length = 3 ∧ g3.length = 4 ∧
      (∀ c ∈ g1 ++ (g2 ++ g3), isDig c = true) ∧
      (∀ c0, g1.head? = some c0 → c0 ≠ '0' ∧ c0 ≠ '1') ∧
      (phoneStrip "1.(555)   555 - 5555".data = g1 ++ (g2 ++ g3) ∨
        phoneStrip "1.(555)   555 - 5555".data = '1' :: (g1 ++ (g2 ++ g3))) :=
  c10_phone_normalized false "1.(555)   555 - 5555".data "555-555-5555".data
    (by decide) rfl

end Hugh
